import Mathlib

/-!
Verification of the folder-gallery generator (src/generate_output_gallery.py).

The script scans a source folder, copies every regular file into the output
files directory docs/files (renaming on name collisions by appending an
incrementing counter before the extension), and writes one static HTML page
with a per-file card and a format-specific preview.

Embedding conventions used throughout this development:

* A Python str is a sequence of Unicode code points; it is modelled as
  List Char (named PyStr below).  Lean String operations are avoided in
  definitions because everything here is by-hand transcription of the
  Python source, and List Char keeps proofs and evaluation direct.
* File contents are modelled by a single PyStr value.  The script only
  ever moves contents around verbatim (read_bytes/write_bytes) or decodes
  them as UTF-8 text with errors="replace"; the byte/str distinction and
  the replacement of undecodable bytes happen below the abstraction and
  are noted where relevant.
* Pure fragments of the script (esc, preview_for, the collision loop, the
  page strings) become Lean functions.  The filesystem effects of main
  become explicit state passing: the files directory is a list of
  (name, content) entries in creation order, and the page and the stdout
  line are returned as values.
-/

namespace Gallery

/-- Python strings: sequences of Unicode code points. -/
abbrev PyStr := List Char

/-- Transcription of a Python string literal into the model. -/
def lit (s : String) : PyStr := s.data

/-- The single-quote character U+0027. -/
def squote : Char := Char.ofNat 39

/-- Python str.replace(pat, repl) for a one-character pattern pat: every
occurrence of the character is replaced by repl.  For a pattern of length
one the occurrences are exactly the matching positions, so the
left-to-right scan of CPython is a pointwise map over the code points. -/
def replaceChar (s : PyStr) (c : Char) (r : PyStr) : PyStr :=
  (s.map (fun ch => if ch = c then r else [ch])).flatten

/-- Function esc of the script (lines 60-62): five successive
single-character replaces, the ampersand first. -/
def esc (s : PyStr) : PyStr :=
  replaceChar (replaceChar (replaceChar (replaceChar (replaceChar
    s '&' (lit "&amp;")) '<' (lit "&lt;")) '>' (lit "&gt;"))
    '"' (lit "&quot;")) squote (lit "&#39;")

/-- The five entity strings produced by esc. -/
def entities : List PyStr := [lit "&amp;", lit "&lt;", lit "&gt;", lit "&quot;", lit "&#39;"]

/-- One-pass description of esc: the image of a single source character. -/
def escToken (c : Char) : PyStr :=
  if c = '&' then lit "&amp;"
  else if c = '<' then lit "&lt;"
  else if c = '>' then lit "&gt;"
  else if c = '"' then lit "&quot;"
  else if c = squote then lit "&#39;"
  else [c]

/-! ### Decimal rendering of the collision counter

The collision loop interpolates the integer i into an f-string; CPython
renders a nonnegative int as its decimal digits.  The rendering is defined
with explicit fuel so that it is structural (the fuel n + 1 always
suffices, because the argument drops by a factor of ten per step). -/
/-- Decimal digit accumulation for natStr. -/
def natDigitsAux : Nat → Nat → List Char → List Char
  | 0, _, acc => acc
  | fuel + 1, n, acc =>
    if n < 10 then Nat.digitChar n :: acc
    else natDigitsAux fuel (n / 10) (Nat.digitChar (n % 10) :: acc)

/-- Python str(n) for a nonnegative int n: decimal digits, no sign. -/
def natStr (n : Nat) : PyStr := natDigitsAux (n + 1) n []

/-! ### pathlib name splitting

PurePath.stem and PurePath.suffix split the base name at the last dot,
provided the dot is neither the first nor the last character
(CPython: i = name.rfind(".") ; 0 < i < len(name) - 1). -/
/-- Python name.rfind("."): index of the last dot of the name, if any. -/
def rfindDot (name : PyStr) : Option Nat :=
  match name.reverse.findIdx? (fun c => c == '.') with
  | some j => some (name.length - 1 - j)
  | none => none

/-- pathlib PurePath.suffix of a base name. -/
def pySuffix (name : PyStr) : PyStr :=
  match rfindDot name with
  | some i => if 0 < i ∧ i < name.length - 1 then name.drop i else []
  | none => []

/-- pathlib PurePath.stem of a base name. -/
def pyStem (name : PyStr) : PyStr :=
  match rfindDot name with
  | some i => if 0 < i ∧ i < name.length - 1 then name.take i else name
  | none => name

/-! ### The copy loop of main (lines 131-138)

The files directory is modelled as the list of its (name, content) entries
in creation order; dst.exists() is membership of the name among the
current entries. -/
/-- The renamed candidate FILES / (stem_i ++ suffix) interpolated by the
collision loop for counter value i. -/
def cand (stem suffix : PyStr) (i : Nat) : PyStr :=
  stem ++ lit "_" ++ natStr i ++ suffix

/-- The while-loop of main: starting from counter value i, return the first
candidate that is not an existing entry.  The loop is given explicit fuel;
main runs it with fuel ex.length + 1, which always suffices by
cand_exists_free. -/
def resolveLoop (ex : List PyStr) (stem suffix : PyStr) : Nat → Nat → PyStr
  | 0, i => cand stem suffix i
  | fuel + 1, i =>
    if cand stem suffix i ∈ ex then resolveLoop ex stem suffix fuel (i + 1)
    else cand stem suffix i

/-- Destination-name computation of main lines 132-137: the base name if it
is free, otherwise the first free suffixed candidate counting from 1. -/
def destName (ex : List PyStr) (name : PyStr) : PyStr :=
  if name ∈ ex then resolveLoop ex (pyStem name) (pySuffix name) (ex.length + 1) 1
  else name

/-- One run of the copy loop over the listed source files (base name and
content, in processing order), starting from a files directory holding the
entries st.  Returns the final directory state and the entries copied this
run, in order. -/
def runCopy : List (PyStr × PyStr) → List (PyStr × PyStr) →
    List (PyStr × PyStr) × List (PyStr × PyStr)
  | [], st => (st, [])
  | (nm, cont) :: rest, st =>
    let d := destName (st.map Prod.fst) nm
    let r := runCopy rest (st ++ [(d, cont)])
    (r.1, (d, cont) :: r.2)

/-! ### Source tree and the file collector (lines 129-131)

SRC_DIR.rglob("*") enumerates the tree in an OS-dependent order;
sorted(src_files) then sorts the Path objects, which in CPython 3.12
compare by the full path string (code-point lexicographic).  CPython
sorted is stable, and insertion sort is the canonical stable sort, so any
stable sort by the same key produces the same list. -/
/-- A directory listing: a forest of named regular files and
subdirectories, in on-disk enumeration order. -/
inductive FsTree where
  | nil : FsTree
  | file (name content : PyStr) (rest : FsTree) : FsTree
  | dir (name : PyStr) (children : FsTree) (rest : FsTree) : FsTree

/-- Every regular file reachable under the tree by recursive traversal,
as (full path string below the prefix pre, base name, content).  POSIX
paths join components with a slash. -/
def filesUnder (pre : PyStr) : FsTree → List (PyStr × PyStr × PyStr)
  | .nil => []
  | .file n c rest => (pre ++ n, n, c) :: filesUnder pre rest
  | .dir n ch rest =>
    filesUnder (pre ++ n ++ lit "/") ch ++ filesUnder pre rest

/-- Code-point lexicographic string comparison: the Python str order, and
the Path order of CPython 3.12 (paths compare by their path string). -/
def lexLe : PyStr → PyStr → Bool
  | [], _ => true
  | _ :: _, [] => false
  | a :: as, b :: bs =>
    if a.toNat < b.toNat then true
    else if a.toNat = b.toNat then lexLe as bs
    else false

/-- Propositional form of lexLe for the sorting lemmas. -/
def strLe (a b : PyStr) : Prop := lexLe a b = true

instance : DecidableRel strLe :=
  fun a b => inferInstanceAs (Decidable (lexLe a b = true))

/-- Order on collected file records: by the full path string, the sort key
Python uses on the Path list. -/
def fileLe (a b : PyStr × PyStr × PyStr) : Prop := strLe a.1 b.1

instance : DecidableRel fileLe :=
  fun a b => inferInstanceAs (Decidable (lexLe a.1 b.1 = true))

/-- sorted(src_files): the collected files in sorted order. -/
def collectSorted (pre : PyStr) (t : FsTree) : List (PyStr × PyStr × PyStr) :=
  List.insertionSort fileLe (filesUnder pre t)

/-! ### CSV preview (lines 70-92)

The script opens the copied file in text mode (universal newlines) and
parses it with csv.reader under the default dialect: delimiter comma,
quote character double quote, doublequote on, strict off.  In the text
model the utf-8 decode itself always succeeds (decode errors are a
byte-level phenomenon below the content abstraction), so the one
exception the try can raise is the csv.Error for a field longer than
csv.field_size_limit; it recurs identically on the utf-8-sig retry, and
the except arm then renders the error note of line 86.  (The retry could
differ from the first attempt only by a stripped byte-order mark, a
decode-level effect below the abstraction.) -/
/-- Universal-newline translation done by text-mode open: CRLF and CR
become LF. -/
def translateNewlines : PyStr → PyStr
  | [] => []
  | '\r' :: '\n' :: rest => '\n' :: translateNewlines rest
  | '\r' :: rest => '\n' :: translateNewlines rest
  | c :: rest => c :: translateNewlines rest

/-- States of the csv.reader field automaton (the default dialect states
that can occur for already-decoded text). -/
inductive CsvMode where
  | startField : CsvMode
  | inField : CsvMode
  | inQuoted : CsvMode
  | quoteInQuoted : CsvMode

/-- Parser state: finished records, fields of the current record, the
current field, whether the current record has consumed any character, and
the automaton mode. -/
structure CsvSt where
  done : List (List PyStr)
  cur : List PyStr
  field : PyStr
  started : Bool
  mode : CsvMode

/-- One character of csv.reader: quote handling per the default dialect
(a quote is only special at field start; a doubled quote inside a quoted
field is a literal quote; text after a closing quote is appended
verbatim), a blank line yields an empty record. -/
def csvStep (st : CsvSt) (c : Char) : CsvSt :=
  match st with
  | ⟨done, cur, field, started, mode⟩ =>
    match mode with
    | .startField =>
      if c = '"' then ⟨done, cur, field, true, .inQuoted⟩
      else if c = ',' then ⟨done, cur ++ [field], [], true, .startField⟩
      else if c = '\n' then
        if started then ⟨done ++ [cur ++ [field]], [], [], false, .startField⟩
        else ⟨done ++ [[]], [], [], false, .startField⟩
      else ⟨done, cur, field ++ [c], true, .inField⟩
    | .inField =>
      if c = ',' then ⟨done, cur ++ [field], [], started, .startField⟩
      else if c = '\n' then ⟨done ++ [cur ++ [field]], [], [], false, .startField⟩
      else ⟨done, cur, field ++ [c], started, .inField⟩
    | .inQuoted =>
      if c = '"' then ⟨done, cur, field, started, .quoteInQuoted⟩
      else ⟨done, cur, field ++ [c], started, .inQuoted⟩
    | .quoteInQuoted =>
      if c = '"' then ⟨done, cur, field ++ [c], started, .inQuoted⟩
      else if c = ',' then ⟨done, cur ++ [field], [], started, .startField⟩
      else if c = '\n' then ⟨done ++ [cur ++ [field]], [], [], false, .startField⟩
      else ⟨done, cur, field ++ [c], started, .inField⟩

/-- All records csv.reader yields for the decoded content.  At end of
input a pending record is emitted as-is (the non-strict reader also
returns an unterminated quoted field this way). -/
def csvRecords (content : PyStr) : List (List PyStr) :=
  let fin := (translateNewlines content).foldl csvStep ⟨[], [], [], false, .startField⟩
  if fin.started then fin.done ++ [fin.cur ++ [fin.field]] else fin.done

/-- csv.field_size_limit default: 128 KiB. -/
def csvFieldLimit : Nat := 131072

/-- Whether the csv read of preview_for completes without the field-size
error.  The reader checks each field against csv.field_size_limit while
parsing, lazily: next(rd, ...) pulls the header, and the enumerate loop
pulls data records up to and including the 31st (that one is pulled
before the break fires), so the first 32 records are the ones whose
fields are examined at all. -/
def csvReadOk (content : PyStr) : Bool :=
  ((csvRecords content).take 32).all (fun r => r.all (fun f => f.length ≤ csvFieldLimit))

/-- CSV branch of preview_for: header = next(rd, []) (with the falsy-[]
guard), then up to 30 data rows (enumerate breaks at index 30), every cell
escaped, rendered as a table whose caption reports len(rows); when a
consumed field exceeds csv.field_size_limit both attempts raise csv.Error
and the branch renders the error note with the escaped message instead. -/
def previewCsv (content : PyStr) : PyStr :=
  if csvReadOk content then
    let rs := csvRecords content
    let header := rs.headD []
    let rows := (rs.drop 1).take 30
    let thead := (header.map (fun h => lit "<th>" ++ esc h ++ lit "</th>")).flatten
    let trs := rows.map (fun r =>
      lit "<tr>" ++ (r.map (fun cell => lit "<td>" ++ esc cell ++ lit "</td>")).flatten ++
        lit "</tr>")
    lit "<div class=\"table-wrap\"><table><thead><tr>" ++ thead ++
      lit "</tr></thead><tbody>" ++ trs.flatten ++
      lit "</tbody></table><p class=\"note\">僅顯示前 " ++ natStr rows.length ++
      lit " 列。</p></div>"
  else
    lit "<p class=\"note\">CSV 讀取失敗：" ++
      esc (lit "field larger than field limit (131072)") ++ lit "</p>"

/-! ### Text head preview (lines 101-103) -/
/-- Line-boundary characters str.splitlines still sees after universal
newlines removed CR: LF and the rarer vertical separators. -/
def lineBreaks : List Char :=
  ['\n', Char.ofNat 0x0b, Char.ofNat 0x0c, Char.ofNat 0x1c, Char.ofNat 0x1d,
   Char.ofNat 0x1e, Char.ofNat 0x85, Char.ofNat 0x2028, Char.ofNat 0x2029]

/-- Python str.splitlines: split at line boundaries, no trailing empty
line. -/
def splitPyLines : PyStr → List PyStr
  | [] => []
  | c :: rest =>
    if lineBreaks.contains c then [] :: splitPyLines rest
    else
      match splitPyLines rest with
      | [] => [[c]]
      | l :: ls => (c :: l) :: ls

/-- Python sep.join(parts). -/
def joinSep (sep : PyStr) : List PyStr → PyStr
  | [] => []
  | [x] => x
  | x :: xs => x ++ sep ++ joinSep sep xs

/-- txt/log/md branch: splitlines of the decoded text, first 200 lines,
joined and escaped inside a pre block.  The join separator in the source
is the f-string expression "\\n".join(txt) - a string literal denoting a
literal backslash followed by n (not a newline; this needs Python 3.12,
where backslashes became legal inside f-string expressions) - and the
model reproduces the two-character separator as written. -/
def previewTxt (content : PyStr) : PyStr :=
  let txt := (splitPyLines (translateNewlines content)).take 200
  lit "<pre class=\"code\">" ++ esc (joinSep ['\\', 'n'] txt) ++ lit "</pre>"

/-! ### JSON preview (lines 93-100)

json.loads / json.dumps(data, ensure_ascii=False, indent=2).  Numbers are
Python ints for an integer-only match of the number grammar, and
IEEE-754 binary64 doubles otherwise; the double (sign, mantissa, binary
exponent, plus infinities and NaN) and the two conversions CPython uses -
decimal literal to nearest double with ties to even, and repr as the
shortest decimal that round-trips - are computed below over exact Nat
arithmetic.  String values are lists of code points (not Chars), because
json.loads accepts lone-surrogate u-escapes and Python str carries them.
Object member order is CPython dict order: first insertion keeps the
position, a duplicate key takes the latest value. -/

/-- Fueled binary length: the number of binary digits of n (0 for 0).
The fuel n + 1 always suffices, the argument halves each step. -/
def natBitsAux : Nat → Nat → Nat
  | 0, _ => 0
  | fuel + 1, n => if n = 0 then 0 else natBitsAux fuel (n / 2) + 1

/-- Binary length of n. -/
def natBits (n : Nat) : Nat := natBitsAux (n + 1) n

/-- Round-half-even integer division, the rounding of IEEE-754 binary64
arithmetic and of decimal-to-double conversion. -/
def rhe (p q : Nat) : Nat :=
  let d := p / q
  let r := p % q
  if q < 2 * r then d + 1
  else if 2 * r < q then d
  else if d % 2 = 0 then d else d + 1

/-- Floor of log2 of the positive rational p / q, computed exactly. -/
def floorLog2 (p q : Nat) : Int :=
  let t := natBits q
  (natBits (p * 2 ^ t / q) : Int) - 1 - t

/-- Floor of log10 of the positive rational p / q, computed exactly. -/
def floorLog10 (p q : Nat) : Int :=
  let t := (natStr q).length
  ((natStr (p * 10 ^ t / q)).length : Int) - 1 - t

/-- A CPython float: an IEEE-754 binary64 value.  A finite value is
(-1)^sign * m * 2^e in the canonical encoding (m = 0 for signed zero,
otherwise m < 2^53 with 2^52 ≤ m unless e = -1074, and e ∈ [-1074, 971]);
infinities and NaN are separate. -/
inductive PyFloat where
  | finite (sign : Bool) (m : Nat) (e : Int) : PyFloat
  | inf (sign : Bool) : PyFloat
  | nan : PyFloat
  deriving DecidableEq

/-- float() of the decimal (-1)^sign * N * 10^dexp: the nearest binary64,
ties to even, overflowing to the infinity of that sign (as the json
scanner's conversion does) and underflowing through the subnormals to
signed zero. -/
def nearestDouble (sign : Bool) (N : Nat) (dexp : Int) : PyFloat :=
  if N = 0 then .finite sign 0 (-1074)
  else
    let p := N * 10 ^ dexp.toNat
    let q := 10 ^ (-dexp).toNat
    let e := max (floorLog2 p q - 52) (-1074)
    let m := if 0 ≤ e then rhe p (q * 2 ^ e.toNat) else rhe (p * 2 ^ (-e).toNat) q
    if m = 0 then .finite sign 0 (-1074)
    else
      let me := if 2 ^ 53 ≤ m then (m / 2, e + 1) else (m, e)
      if 971 < me.2 then .inf sign else .finite sign me.1 me.2

/-- The half-even rounding of the positive double m * 2^e to prec
significant decimal digits: digits D (exactly prec of them) and decimal
exponent E, the value being D * 10^(E - prec + 1). -/
def sigRound (m : Nat) (e : Int) (prec : Nat) : Nat × Int :=
  let p := m * 2 ^ e.toNat
  let q := 2 ^ (-e).toNat
  let E := floorLog10 p q
  let s := E - (prec : Int) + 1
  let D := if 0 ≤ s then rhe p (q * 10 ^ s.toNat) else rhe (p * 10 ^ (-s).toNat) q
  if D = 10 ^ prec then (10 ^ (prec - 1), E + 1) else (D, E)

/-- Search for the least number of significant digits that round-trips;
17 digits always do, so the final fallback is exact. -/
def shortestDigitsAux (m : Nat) (e : Int) : List Nat → Nat × Int
  | [] => sigRound m e 17
  | prec :: rest =>
    let DE := sigRound m e prec
    if nearestDouble false DE.1 (DE.2 - (prec : Int) + 1) = .finite false m e then DE
    else shortestDigitsAux m e rest

/-- The digits of CPython repr for a finite positive double: the fewest
significant decimal digits whose nearest double is the value again. -/
def shortestDigits (m : Nat) (e : Int) : Nat × Int :=
  shortestDigitsAux m e [1, 2, 3, 4, 5, 6, 7, 8, 9, 10, 11, 12, 13, 14, 15, 16]

/-- CPython repr placement of the shortest digits D with decimal exponent
E: scientific notation when the decimal point would fall at or before
position -4 or after position 16 (exponent of at least two digits),
otherwise fixed notation with a trailing .0 for integral values. -/
def floatDigitsToStr (D : Nat) (E : Int) : PyStr :=
  let ds := natStr D
  let n := ds.length
  if E ≤ -5 ∨ 16 ≤ E then
    let mant := ds.take 1 ++ (if 1 < n then '.' :: ds.drop 1 else [])
    let eabs := E.natAbs
    let etxt := if eabs < 10 then '0' :: natStr eabs else natStr eabs
    mant ++ 'e' :: (if E < 0 then '-' else '+') :: etxt
  else if (n : Int) - 1 ≤ E then
    ds ++ List.replicate (E - ((n : Int) - 1)).toNat '0' ++ lit ".0"
  else if 0 ≤ E then
    ds.take (E.toNat + 1) ++ '.' :: ds.drop (E.toNat + 1)
  else
    lit "0." ++ List.replicate ((-E).toNat - 1) '0' ++ ds

/-- repr of a float, which json.dumps writes for float values (the
non-standard Infinity, -Infinity and NaN spellings included). -/
def floatRepr : PyFloat → PyStr
  | .nan => lit "NaN"
  | .inf false => lit "Infinity"
  | .inf true => lit "-Infinity"
  | .finite sign 0 _ => if sign then lit "-0.0" else lit "0.0"
  | .finite sign m e =>
    (if sign then ['-'] else []) ++
      (let DE := shortestDigits m e
       floatDigitsToStr DE.1 DE.2)
mutual
inductive JVal where
  | jnull : JVal
  | jbool (b : Bool) : JVal
  | jint (n : Int) : JVal
  | jfloat (f : PyFloat) : JVal
  | jstr (s : List Nat) : JVal
  | jarr (a : JArr) : JVal
  | jobj (o : JObj) : JVal
inductive JArr where
  | anil : JArr
  | acons (hd : JVal) (tl : JArr) : JArr
inductive JObj where
  | onil : JObj
  | ocons (k : List Nat) (v : JVal) (tl : JObj) : JObj
end

/-- The four whitespace characters of the JSON grammar. -/
def jSkipWs (s : PyStr) : PyStr :=
  s.dropWhile (fun c => c == ' ' || c == '\t' || c == '\n' || c == '\r')

/-- Hexadecimal digit value. -/
def hexVal (c : Char) : Option Nat :=
  if 48 ≤ c.toNat ∧ c.toNat ≤ 57 then some (c.toNat - 48)
  else if 97 ≤ c.toNat ∧ c.toNat ≤ 102 then some (c.toNat - 87)
  else if 65 ≤ c.toNat ∧ c.toNat ≤ 70 then some (c.toNat - 55)
  else none

/-- JSON string body, after the opening quote: code points up to the
closing quote, backslash escapes, strictness about raw control characters
below U+0020, and u-escapes.  An adjacent high/low u-escape pair combines
into one supplementary code point; an unpaired surrogate escape stays as
its own code point, exactly as CPython json behaves (Python str carries
lone surrogates).  The result is a list of code points rather than Chars
so that those surrogate values are representable. -/
def jparseStr : Nat → PyStr → Option (List Nat × PyStr)
  | 0, _ => none
  | fuel + 1, s =>
    match s with
    | [] => none
    | '"' :: rest => some ([], rest)
    | '\\' :: 'u' :: a :: b :: cc :: d :: rest =>
      match hexVal a, hexVal b, hexVal cc, hexVal d with
      | some ha, some hb, some hc, some hd =>
        let n := ((ha * 16 + hb) * 16 + hc) * 16 + hd
        if 0xd800 ≤ n ∧ n ≤ 0xdbff then
          match rest with
          | '\\' :: 'u' :: a2 :: b2 :: c2 :: d2 :: rest2 =>
            match hexVal a2, hexVal b2, hexVal c2, hexVal d2 with
            | some ha2, some hb2, some hc2, some hd2 =>
              let n2 := ((ha2 * 16 + hb2) * 16 + hc2) * 16 + hd2
              if 0xdc00 ≤ n2 ∧ n2 ≤ 0xdfff then
                let cp := 0x10000 + (n - 0xd800) * 0x400 + (n2 - 0xdc00)
                (jparseStr fuel rest2).map (fun p => (cp :: p.1, p.2))
              else (jparseStr fuel rest).map (fun p => (n :: p.1, p.2))
            | _, _, _, _ => (jparseStr fuel rest).map (fun p => (n :: p.1, p.2))
          | _ => (jparseStr fuel rest).map (fun p => (n :: p.1, p.2))
        else (jparseStr fuel rest).map (fun p => (n :: p.1, p.2))
      | _, _, _, _ => none
    | '\\' :: e :: rest =>
      let eCode : Option Nat :=
        if e = '"' then some 34
        else if e = '\\' then some 92
        else if e = '/' then some 47
        else if e = 'b' then some 8
        else if e = 'f' then some 12
        else if e = 'n' then some 10
        else if e = 'r' then some 13
        else if e = 't' then some 9
        else none
      match eCode with
      | some ch => (jparseStr fuel rest).map (fun p => (ch :: p.1, p.2))
      | none => none
    | c :: rest =>
      if c.toNat < 0x20 then none
      else (jparseStr fuel rest).map (fun p => (c.toNat :: p.1, p.2))

/-- Decimal value of a digit run. -/
def digitsToNat (ds : List Char) : Nat :=
  ds.foldl (fun a c => a * 10 + (c.toNat - 48)) 0

/-- The integer part of the JSON number grammar: 0, or a nonzero digit
followed by digits (json also stops after the leading 0, so 012 leaves
12 as trailing data exactly as CPython does). -/
def jparseIntDigits : PyStr → Option (Nat × PyStr)
  | [] => none
  | c :: rest =>
    if c = '0' then some (0, rest)
    else if 49 ≤ c.toNat ∧ c.toNat ≤ 57 then
      let ds := rest.takeWhile (fun x => 48 ≤ x.toNat && x.toNat ≤ 57)
      some (digitsToNat (c :: ds), rest.drop ds.length)
    else none

/-- Digit test over code points. -/
def isDigitCh (c : Char) : Bool := 48 ≤ c.toNat && c.toNat ≤ 57

/-- Fraction part of the number grammar: a dot followed by at least one
digit; anything else leaves the input untouched. -/
def jparseFrac (s : PyStr) : List Char × PyStr :=
  match s with
  | '.' :: rest =>
    let ds := rest.takeWhile isDigitCh
    if ds = [] then ([], s) else (ds, rest.drop ds.length)
  | _ => ([], s)

/-- Exponent part of the number grammar: e or E, an optional sign, at
least one digit; anything else leaves the input untouched.  Returns
(negative sign, digits, rest). -/
def jparseExp (s : PyStr) : Bool × List Char × PyStr :=
  match s with
  | c :: rest =>
    if c = 'e' ∨ c = 'E' then
      match rest with
      | '-' :: rest2 =>
        let ds := rest2.takeWhile isDigitCh
        if ds = [] then (false, [], s) else (true, ds, rest2.drop ds.length)
      | '+' :: rest2 =>
        let ds := rest2.takeWhile isDigitCh
        if ds = [] then (false, [], s) else (false, ds, rest2.drop ds.length)
      | _ =>
        let ds := rest.takeWhile isDigitCh
        if ds = [] then (false, [], s) else (false, ds, rest.drop ds.length)
    else (false, [], s)
  | [] => (false, [], s)

/-- JSON number parser, the regex -?(0|[1-9]digits)(.digits)?([eE]sign
digits)?: an integer-only match converts to a Python int, and a match with
a fraction or exponent converts with float(), the nearest binary64. -/
def jparseNum (s : PyStr) : Option (JVal × PyStr) :=
  let core := fun (neg : Bool) (t : PyStr) =>
    match jparseIntDigits t with
    | none => none
    | some (i, r1) =>
      let fr := jparseFrac r1
      let ex := jparseExp fr.2
      if fr.1 = [] ∧ ex.2.1 = [] then
        some (JVal.jint (if neg then -(i : Int) else (i : Int)), r1)
      else
        let N := i * 10 ^ fr.1.length + digitsToNat fr.1
        let E : Int :=
          if ex.1 then -(digitsToNat ex.2.1 : Int) else (digitsToNat ex.2.1 : Int)
        some (JVal.jfloat (nearestDouble neg N (E - fr.1.length)), ex.2.2)
  match s with
  | '-' :: rest => core true rest
  | _ => core false s

/-- Spine conversion for parsed arrays. -/
def toJArr : List JVal → JArr
  | [] => .anil
  | v :: vs => .acons v (toJArr vs)

/-- Spine conversion for parsed objects. -/
def toJObj : List (List Nat × JVal) → JObj
  | [] => .onil
  | (k, v) :: kvs => .ocons k v (toJObj kvs)

/-- dict insertion while building an object: an existing key keeps its
position and takes the new value, a new key is appended. -/
def objInsert (kvs : List (List Nat × JVal)) (k : List Nat) (v : JVal) :
    List (List Nat × JVal) :=
  if kvs.any (fun p => p.1 == k) then
    kvs.map (fun p => if p.1 == k then (p.1, v) else p)
  else kvs ++ [(k, v)]

/-- Element loop for a nonempty array, parameterized by the value parser
one nesting level down.  The loop fuel is spent once per element; each
element consumes at least one character, so remaining length + 1 always
suffices. -/
def jarrLoop (pv : PyStr → Option (JVal × PyStr)) :
    Nat → PyStr → List JVal → Option (List JVal × PyStr)
  | 0, _, _ => none
  | fuel + 1, s, acc =>
    match pv s with
    | none => none
    | some (v, rest) =>
      match jSkipWs rest with
      | [] => none
      | c :: rest2 =>
        if c = ',' then jarrLoop pv fuel rest2 (v :: acc)
        else if c = ']' then some ((v :: acc).reverse, rest2)
        else none

/-- Member loop for a nonempty object: key string, colon, value, then a
comma or the closing brace. -/
def jobjLoop (pv : PyStr → Option (JVal × PyStr)) :
    Nat → PyStr → List (List Nat × JVal) → Option (List (List Nat × JVal) × PyStr)
  | 0, _, _ => none
  | fuel + 1, s, acc =>
    match jSkipWs s with
    | '"' :: rest =>
      match jparseStr (rest.length + 1) rest with
      | none => none
      | some (k, rest2) =>
        match jSkipWs rest2 with
        | ':' :: rest3 =>
          match pv rest3 with
          | none => none
          | some (v, rest4) =>
            match jSkipWs rest4 with
            | [] => none
            | c :: rest5 =>
              if c = ',' then jobjLoop pv fuel rest5 (objInsert acc k v)
              else if c = Char.ofNat 125 then some (objInsert acc k v, rest5)
              else none
        | _ => none
    | _ => none

/-- The JSON value parser, including the non-standard NaN, Infinity and
-Infinity constants CPython accepts by default.  The outer fuel bounds
the nesting depth: a new level is entered only after consuming an opening
bracket, so content length + 1 always suffices. -/
def jparse : Nat → PyStr → Option (JVal × PyStr)
  | 0, _ => none
  | fuel + 1, s =>
    match jSkipWs s with
    | [] => none
    | c :: rest =>
      if c = Char.ofNat 123 then
        match jSkipWs rest with
        | d :: rest2 =>
          if d = Char.ofNat 125 then some (.jobj .onil, rest2)
          else
            match jobjLoop (jparse fuel) (rest.length + 1) rest [] with
            | some (kvs, r) => some (.jobj (toJObj kvs), r)
            | none => none
        | [] => none
      else if c = '[' then
        match jSkipWs rest with
        | d :: rest2 =>
          if d = ']' then some (.jarr .anil, rest2)
          else
            match jarrLoop (jparse fuel) (rest.length + 1) rest [] with
            | some (vs, r) => some (.jarr (toJArr vs), r)
            | none => none
        | [] => none
      else if c = '"' then
        match jparseStr (rest.length + 1) rest with
        | some (body, r) => some (.jstr body, r)
        | none => none
      else if c = 't' then
        match rest with
        | 'r' :: 'u' :: 'e' :: r => some (.jbool true, r)
        | _ => none
      else if c = 'f' then
        match rest with
        | 'a' :: 'l' :: 's' :: 'e' :: r => some (.jbool false, r)
        | _ => none
      else if c = 'n' then
        match rest with
        | 'u' :: 'l' :: 'l' :: r => some (.jnull, r)
        | _ => none
      else if c = 'N' then
        match rest with
        | 'a' :: 'N' :: r => some (.jfloat .nan, r)
        | _ => none
      else if c = 'I' then
        match rest with
        | 'n' :: 'f' :: 'i' :: 'n' :: 'i' :: 't' :: 'y' :: r =>
          some (.jfloat (.inf false), r)
        | _ => none
      else if c = '-' then
        match rest with
        | 'I' :: 'n' :: 'f' :: 'i' :: 'n' :: 'i' :: 't' :: 'y' :: r =>
          some (.jfloat (.inf true), r)
        | _ => jparseNum (c :: rest)
      else jparseNum (c :: rest)

/-- json.loads of the decoded text: one value, then only whitespace. -/
def jloads (content : PyStr) : Option JVal :=
  match jparse (content.length + 1) content with
  | some (v, rest) => if jSkipWs rest = [] then some v else none
  | none => none

/-- Python str(n) for an int. -/
def intStr (n : Int) : PyStr :=
  if n < 0 then '-' :: natStr n.natAbs else natStr n.natAbs

/-- json.dumps escaping of one code point of a string value under
ensure_ascii=False: backslash, quote and control characters below U+0020
are escaped (short forms for the common ones, u-escapes otherwise), all
else written as the code point itself.  A lone surrogate - reachable only
through an unpaired u-escape in the input - is a code point the program
writes verbatim into its fragment but Lean Char cannot carry; Char.ofNat
sends it to U+0000, the one place the rendered model departs from the str
the program builds (a page holding such a fragment is one the program can
no longer write: the final UTF-8 write_text raises UnicodeEncodeError). -/
def jescCharPt (n : Nat) : PyStr :=
  if n = 92 then ['\\', '\\']
  else if n = 34 then ['\\', '"']
  else if n = 10 then ['\\', 'n']
  else if n = 13 then ['\\', 'r']
  else if n = 9 then ['\\', 't']
  else if n = 8 then ['\\', 'b']
  else if n = 12 then ['\\', 'f']
  else if n < 0x20 then
    ['\\', 'u', '0', '0', Nat.digitChar (n / 16), Nat.digitChar (n % 16)]
  else [Char.ofNat n]

/-- json.dumps rendering of a string value. -/
def jescStr (s : List Nat) : PyStr := '"' :: (s.map jescCharPt).flatten ++ ['"']

/-- Indentation prefix at nesting depth d for indent=2. -/
def jindent (d : Nat) : PyStr := List.replicate (2 * d) ' '

mutual
/-- json.dumps(value, ensure_ascii=False, indent=2) at nesting depth d:
containers spread one item per line, items separated by comma-newline,
keys separated from values by colon-space, empty containers inline. -/
def jdumpVal (d : Nat) : JVal → PyStr
  | .jnull => lit "null"
  | .jbool true => lit "true"
  | .jbool false => lit "false"
  | .jint n => intStr n
  | .jfloat f => floatRepr f
  | .jstr s => jescStr s
  | .jarr .anil => lit "[]"
  | .jarr (.acons v t) =>
    lit "[\n" ++ jindent (d + 1) ++ jdumpVal (d + 1) v ++
      jdumpArrTail (d + 1) t ++ lit "\n" ++ jindent d ++ lit "]"
  | .jobj .onil => lit "\x7b\x7d"
  | .jobj (.ocons k v t) =>
    lit "\x7b\n" ++ jindent (d + 1) ++ jescStr k ++ lit ": " ++
      jdumpVal (d + 1) v ++ jdumpObjTail (d + 1) t ++ lit "\n" ++
      jindent d ++ lit "\x7d"
/-- Remaining array items at depth d. -/
def jdumpArrTail (d : Nat) : JArr → PyStr
  | .anil => []
  | .acons v t => lit ",\n" ++ jindent d ++ jdumpVal d v ++ jdumpArrTail d t
/-- Remaining object members at depth d. -/
def jdumpObjTail (d : Nat) : JObj → PyStr
  | .onil => []
  | .ocons k v t =>
    lit ",\n" ++ jindent d ++ jescStr k ++ lit ": " ++ jdumpVal d v ++
      jdumpObjTail d t
end

/-- json.dumps(data, ensure_ascii=False, indent=2). -/
def jdumps (v : JVal) : PyStr := jdumpVal 0 v

/-- json branch of preview_for: read as text (universal newlines, errors
replaced below the abstraction), strict parse and pretty re-serialization
on success; on any failure the except arm re-reads the same file and caps
the raw text at 200000 code points.  Either way the payload is escaped
into a pre block. -/
def previewJson (content : PyStr) : PyStr :=
  let raw := translateNewlines content
  match jloads raw with
  | some v => lit "<pre class=\"code\">" ++ esc (jdumps v) ++ lit "</pre>"
  | none => lit "<pre class=\"code\">" ++ esc (raw.take 200000) ++ lit "</pre>"

/-! ### preview_for dispatch (lines 64-104) and the page (lines 106-175) -/
/-- Python str.lower restricted to the code points that occur in
extensions (ASCII letters; Char.toLower lowers exactly those). -/
def pyLower (s : PyStr) : PyStr := s.map Char.toLower

/-- Python str.lstrip(".") - all leading dots removed. -/
def lstripDots (s : PyStr) : PyStr := s.dropWhile (fun c => c == '.')

/-- preview_for(path, rel_href): dispatch on the lower-cased extension of
the destination name.  rel_href goes into the img and iframe src
attributes verbatim - the script does not pass it through esc - while the
alt text is escaped. -/
def preview_for (dstName content relHref : PyStr) : PyStr :=
  let ext := lstripDots (pyLower (pySuffix dstName))
  if ext ∈ [lit "png", lit "jpg", lit "jpeg", lit "gif", lit "svg", lit "webp"] then
    lit "<img src=\"" ++ relHref ++ lit "\" alt=\"" ++ esc dstName ++
      lit "\" style=\"max-width:100%;height:auto;border:1px solid #eee;border-radius:6px;\" loading=\"lazy\"/>"
  else if ext = lit "pdf" then
    lit "<div class=\"pdf-wrap\"><iframe src=\"" ++ relHref ++
      lit "\" title=\"pdf\"></iframe><div class=\"note\">若無法預覽，請點下載。</div></div>"
  else if ext = lit "csv" then
    previewCsv content
  else if ext = lit "json" then
    previewJson content
  else if ext ∈ [lit "txt", lit "log", lit "md"] then
    previewTxt content
  else
    lit "<p class=\"note\">此檔案型別未提供預覽。</p>"

/-- One-decimal fixed formatting of the exact fraction num / den with
round-half-even ties, the rounding CPython %.1f applies to a double. -/
def fmt1 (num den : Nat) : PyStr :=
  let t := num * 10
  let i := t / den
  let r := t % den
  let d :=
    if den < 2 * r then i + 1
    else if 2 * r < den then i
    else if i % 2 = 0 then i else i + 1
  natStr (d / 10) ++ lit "." ++ natStr (d % 10)

/-- The unit labels of human_size. -/
def sizeUnits : List PyStr := [lit "B", lit "KB", lit "MB", lit "GB", lit "TB"]

/-- The loop of human_size: walk the unit list dividing by 1024, stop at
the first unit where the value drops below 1024 or at the last unit.  The
running value n / 1024^k is carried as an exact fraction; its denominator
is a power of two, so for sizes below 2^53 the double arithmetic of the
source is exact and agrees with this model. -/
def humanSizeAux : List PyStr → Nat → Nat → PyStr
  | [], _, _ => []
  | [u], num, den => fmt1 num den ++ u
  | u :: us, num, den =>
    if num < 1024 * den then fmt1 num den ++ u
    else humanSizeAux us num (den * 1024)

/-- human_size (lines 106-112). -/
def human_size (n : Nat) : PyStr := humanSizeAux sizeUnits n 1

/-- mimetypes.guess_type on the destination name: stdlib extension table
restricted to the extensions the previews care about; anything else is
unknown and main substitutes application/octet-stream. -/
def mimeGuess (name : PyStr) : Option PyStr :=
  let ext := pyLower (pySuffix name)
  if ext = lit ".png" then some (lit "image/png")
  else if ext = lit ".jpg" then some (lit "image/jpeg")
  else if ext = lit ".jpeg" then some (lit "image/jpeg")
  else if ext = lit ".gif" then some (lit "image/gif")
  else if ext = lit ".svg" then some (lit "image/svg+xml")
  else if ext = lit ".webp" then some (lit "image/webp")
  else if ext = lit ".pdf" then some (lit "application/pdf")
  else if ext = lit ".csv" then some (lit "text/csv")
  else if ext = lit ".json" then some (lit "application/json")
  else if ext = lit ".txt" then some (lit "text/plain")
  else if ext = lit ".md" then some (lit "text/markdown")
  else none

/-- The badge text of a card: dst.suffix.lstrip(".").lower() or "file"
(the or-guard replaces the empty string). -/
def badgeOf (dstName : PyStr) : PyStr :=
  let b := pyLower (lstripDots (pySuffix dstName))
  if b = [] then lit "file" else b

/-- One card (the f-string of lines 144-155).  Badge, name and MIME kind
go through esc; the size text is program-generated; rel is interpolated
verbatim into the download href. -/
def cardHtml (dstName content rel sizeStr kind : PyStr) : PyStr :=
  lit "\n<article class=\"card\">\n  <div class=\"meta\">\n    <div><span class=\"badge\">" ++
  esc (badgeOf dstName) ++
  lit "</span></div>\n    <div><b>檔名</b>" ++ esc dstName ++
  lit "</div>\n    <div><b>大小</b>" ++ sizeStr ++
  lit "</div>\n    <div><b>MIME</b>" ++ esc kind ++
  lit "</div>\n  </div>\n  " ++ preview_for dstName content rel ++
  lit "\n  <div><a class=\"btn\" href=\"" ++ rel ++
  lit "\" download>下載</a></div>\n</article>\n"

/-- The full page (lines 157-173): fixed shell, escaped source path,
timestamp text, and the concatenated cards or the no-files note. -/
def pageHtml (srcPath updated : PyStr) (cards : List PyStr) : PyStr :=
  lit "<!doctype html>\n<html lang=\"zh-Hant\">\n<meta charset=\"utf-8\"/>\n<meta name=\"viewport\" content=\"width=device-width,initial-scale=1\"/>\n<title>資料夾內容總覽</title>\n<link rel=\"stylesheet\" href=\"./site_assets/styles.css\"/>\n<body>\n<header><h1>資料夾內容總覽</h1></header>\n<main>\n  <p class=\"note\">來源資料夾：<code>" ++
  esc srcPath ++ lit "</code>；更新時間：" ++ updated ++
  lit "</p>\n  <section class=\"grid\">\n    " ++
  (if cards = [] then lit "<p class=\x27note\x27>資料夾目前沒有檔案。</p>" else cards.flatten) ++
  lit "\n  </section>\n</main>\n</body>\n</html>"

/-- The short-circuit page written when the source folder is missing
(lines 120-124). -/
def notFoundPage (srcPath : PyStr) : PyStr :=
  lit "<!doctype html><meta charset=\x27utf-8\x27><link rel=\x27stylesheet\x27 href=\x27./site_assets/styles.css\x27>" ++
  lit "<body><main><h1>資料夾不存在</h1><p class=\x27note\x27>找不到來源資料夾：<code>" ++
  esc srcPath ++ lit "</code></p></main></body>"

/-- Observable result of one invocation of main: the page written to
docs/index.html, the files-directory contents, and the stdout line. -/
structure RunResult where
  page : PyStr
  filesDir : List (PyStr × PyStr)
  stdoutLine : PyStr

/-- main (lines 114-175) with the filesystem explicit.  srcExists models
SRC_DIR.exists(); srcPath is str(SRC_DIR); tree the directory contents;
initFiles the docs/files entries already present when the run starts
(ensure_dirs uses exist_ok=True, so previous entries survive); updated is
the rendered timestamp.  In the missing-source branch main writes the
short page, prints the not-found line and returns without touching the
files directory; otherwise it copies the sorted files and assembles one
card per copy.  st.st_size is the byte count of the copy; in the text
model it is read off the content (they agree for ASCII contents, and no
claim depends on the figure). -/
def mainRun (srcExists : Bool) (srcPath : PyStr) (tree : FsTree)
    (initFiles : List (PyStr × PyStr)) (updated : PyStr) : RunResult :=
  if srcExists then
    let fs := collectSorted (srcPath ++ lit "/") tree
    let r := runCopy (fs.map (fun x => (x.2.1, x.2.2))) initFiles
    let cards := r.2.map (fun e =>
      let rel := lit "./files/" ++ e.1
      let sizeStr := human_size e.2.length
      let kind := (mimeGuess e.1).getD (lit "application/octet-stream")
      cardHtml e.1 e.2 rel sizeStr kind)
    ⟨pageHtml srcPath updated cards, r.1,
      lit "[OK] Wrote docs/index.html from " ++ srcPath⟩
  else
    ⟨notFoundPage srcPath, initFiles,
      lit "Source folder not found: " ++ srcPath⟩

theorem replaceChar_append (a b : PyStr) (c : Char) (r : PyStr) :
    replaceChar (a ++ b) c r = replaceChar a c r ++ replaceChar b c r := by
  simp [replaceChar]

theorem replaceChar_cons (x : Char) (s : PyStr) (c : Char) (r : PyStr) :
    replaceChar (x :: s) c r = (if x = c then r else [x]) ++ replaceChar s c r := by
  simp [replaceChar]

theorem esc_cons (c : Char) (s : PyStr) : esc (c :: s) = escToken c ++ esc s := by
  by_cases h1 : c = '&'
  · subst h1
    simp +decide [esc, escToken, replaceChar_cons, replaceChar_append]
  by_cases h2 : c = '<'
  · subst h2
    simp +decide [esc, escToken, replaceChar_cons, replaceChar_append]
  by_cases h3 : c = '>'
  · subst h3
    simp +decide [esc, escToken, replaceChar_cons, replaceChar_append]
  by_cases h4 : c = '"'
  · subst h4
    simp +decide [esc, escToken, replaceChar_cons, replaceChar_append]
  by_cases h5 : c = squote
  · subst h5
    simp +decide [esc, escToken, replaceChar_cons, replaceChar_append]
  simp [esc, escToken, replaceChar_cons, replaceChar_append, h1, h2, h3, h4, h5]

theorem esc_eq_flatten (s : PyStr) : esc s = (s.map escToken).flatten := by
  induction s with
  | nil => rfl
  | cons c s ih => simp [esc_cons, ih]

theorem escToken_ne_nil (c : Char) : escToken c ≠ [] := by
  unfold escToken
  split_ifs <;> simp [lit]

theorem escToken_safe (c : Char) :
    ∀ x ∈ escToken c, x ≠ '<' ∧ x ≠ '>' ∧ x ≠ '"' ∧ x ≠ squote := by
  unfold escToken
  split_ifs with h1 h2 h3 h4 h5
  · decide
  · decide
  · decide
  · decide
  · decide
  · intro x hx
    simp at hx
    subst hx
    exact ⟨h2, h3, h4, h5⟩

theorem esc_safe (s : PyStr) :
    ∀ x ∈ esc s, x ≠ '<' ∧ x ≠ '>' ∧ x ≠ '"' ∧ x ≠ squote := by
  intro x hx
  rw [esc_eq_flatten] at hx
  obtain ⟨l, hl, hxl⟩ := List.mem_flatten.mp hx
  obtain ⟨c, _, rfl⟩ := List.mem_map.mp hl
  exact escToken_safe c x hxl

theorem suffix_append_cases {α : Type} {t a b : List α} (h : t <:+ a ++ b) :
    t <:+ b ∨ ∃ u, u <:+ a ∧ u ≠ [] ∧ t = u ++ b := by
  obtain ⟨p, hp⟩ := h
  rcases List.append_eq_append_iff.mp hp with ⟨u, hu1, hu2⟩ | ⟨u, hu1, hu2⟩
  · rcases List.eq_nil_or_concat u with rfl | _
    · left
      simp at hu2
      exact hu2 ▸ List.suffix_rfl
    · right
      exact ⟨u, ⟨p, hu1.symm⟩, by rintro rfl; simp_all, hu2⟩
  · left
    exact ⟨u, hu2.symm⟩

theorem escToken_amp_suffix (c : Char) (u : PyStr) (hu : u <:+ escToken c)
    (hhd : u.head? = some '&') : u = escToken c ∧ escToken c ∈ entities := by
  unfold escToken at hu ⊢
  split_ifs at hu ⊢ with h1 h2 h3 h4 h5
  · exact ⟨(by decide : ∀ v ∈ (lit "&amp;").tails, v.head? = some '&' → v = lit "&amp;") u
      ((List.mem_tails _ _).mpr hu) hhd, by decide⟩
  · exact ⟨(by decide : ∀ v ∈ (lit "&lt;").tails, v.head? = some '&' → v = lit "&lt;") u
      ((List.mem_tails _ _).mpr hu) hhd, by decide⟩
  · exact ⟨(by decide : ∀ v ∈ (lit "&gt;").tails, v.head? = some '&' → v = lit "&gt;") u
      ((List.mem_tails _ _).mpr hu) hhd, by decide⟩
  · exact ⟨(by decide : ∀ v ∈ (lit "&quot;").tails, v.head? = some '&' → v = lit "&quot;") u
      ((List.mem_tails _ _).mpr hu) hhd, by decide⟩
  · exact ⟨(by decide : ∀ v ∈ (lit "&#39;").tails, v.head? = some '&' → v = lit "&#39;") u
      ((List.mem_tails _ _).mpr hu) hhd, by decide⟩
  · rcases List.suffix_cons_iff.mp hu with rfl | h
    · simp at hhd
      exact absurd hhd h1
    · have : u = [] := List.suffix_nil.mp h
      subst this
      simp at hhd

theorem esc_amp_property (s : PyStr) :
    ∀ t, t <:+ esc s → t.head? = some '&' → ∃ e ∈ entities, e <+: t := by
  induction s with
  | nil =>
    intro t ht hh
    have : t = [] := List.suffix_nil.mp ht
    subst this
    simp at hh
  | cons c s ih =>
    intro t ht hh
    rw [esc_cons] at ht
    rcases suffix_append_cases ht with h | ⟨u, hu, hne, rfl⟩
    · exact ih t h hh
    · have hh2 : u.head? = some '&' := by
        cases u with
        | nil => exact absurd rfl hne
        | cons a us => simpa using hh
      obtain ⟨heq, hent⟩ := escToken_amp_suffix c u hu hh2
      exact ⟨escToken c, hent, heq ▸ List.prefix_append _ _⟩

theorem lit_amp : lit "&amp;" = ['&', 'a', 'm', 'p', ';'] := by decide

theorem lit_lt : lit "&lt;" = ['&', 'l', 't', ';'] := by decide

theorem lit_gt : lit "&gt;" = ['&', 'g', 't', ';'] := by decide

theorem lit_quot : lit "&quot;" = ['&', 'q', 'u', 'o', 't', ';'] := by decide

theorem lit_num39 : lit "&#39;" = ['&', '#', '3', '9', ';'] := by decide

theorem escToken_prefix_code (c d : Char) (A B : PyStr)
    (h : escToken c ++ A = escToken d ++ B) : c = d ∧ A = B := by
  unfold escToken at h
  split_ifs at h <;>
      (try simp_all +decide [lit_amp, lit_lt, lit_gt, lit_quot, lit_num39]) <;>
    (obtain ⟨hcd, hAB⟩ := h
     exact absurd hcd.symm (by assumption))

theorem escFlat_inj : ∀ l1 l2 : PyStr,
    (l1.map escToken).flatten = (l2.map escToken).flatten → l1 = l2 := by
  intro l1
  induction l1 with
  | nil =>
    intro l2 h
    cases l2 with
    | nil => rfl
    | cons d t =>
      simp only [List.map_nil, List.flatten_nil, List.map_cons, List.flatten_cons] at h
      exact absurd (List.append_eq_nil.mp h.symm).1 (escToken_ne_nil d)
  | cons c t1 ih =>
    intro l2 h
    cases l2 with
    | nil =>
      simp only [List.map_nil, List.flatten_nil, List.map_cons, List.flatten_cons] at h
      exact absurd (List.append_eq_nil.mp h).1 (escToken_ne_nil c)
    | cons d t2 =>
      simp only [List.map_cons, List.flatten_cons] at h
      obtain ⟨rfl, hrest⟩ := escToken_prefix_code c d _ _ h
      rw [ih t2 hrest]

theorem esc_injective : Function.Injective esc := by
  intro a b h
  apply escFlat_inj
  rw [← esc_eq_flatten, ← esc_eq_flatten]
  exact h

/-- Claim C10: for every input string s, esc s contains none of the
characters <, >, double quote, single quote; every suffix of esc s that
starts with an ampersand starts with one of the five entities (so every
ampersand in the output is the head of an entity, because the ampersand is
replaced first and pre-existing entities get re-escaped); and esc is
injective. -/
theorem esc_safe_entity_headed_injective :
    (∀ s : PyStr,
      (∀ x ∈ esc s, x ≠ '<' ∧ x ≠ '>' ∧ x ≠ '"' ∧ x ≠ squote) ∧
      (∀ t, t <:+ esc s → t.head? = some '&' → ∃ e ∈ entities, e <+: t)) ∧
    Function.Injective esc :=
  ⟨fun s => ⟨esc_safe s, esc_amp_property s⟩, esc_injective⟩

/-- Concrete instantiation of the previous theorem: the suffix of
esc "a&b" that starts at the ampersand is headed by the entity amp, and
the injectivity face applied at a concrete pair. -/
theorem esc_safe_entity_headed_injective_check :
    ('a' ≠ '<' ∧ 'a' ≠ '>' ∧ 'a' ≠ '"' ∧ 'a' ≠ squote) ∧
    (∃ e ∈ entities, e <+: lit "&amp;b") ∧ lit "x<y" = lit "x<y" :=
  ⟨(esc_safe_entity_headed_injective.1 (lit "a")).1 'a' (by decide),
   (esc_safe_entity_headed_injective.1 (lit "a&b")).2 (lit "&amp;b") (by decide) (by decide),
   esc_safe_entity_headed_injective.2 (by decide)⟩

theorem natDigitsAux_acc (fuel : Nat) :
    ∀ n acc, natDigitsAux fuel n acc = natDigitsAux fuel n [] ++ acc := by
  induction fuel with
  | zero => intro n acc; rfl
  | succ f ih =>
    intro n acc
    by_cases h : n < 10
    · simp [natDigitsAux, h]
    · simp only [natDigitsAux, if_neg h]
      rw [ih (n / 10) (Nat.digitChar (n % 10) :: acc),
        ih (n / 10) [Nat.digitChar (n % 10)]]
      simp

theorem natDigitsAux_fuel (n : Nat) : ∀ f acc, n + 1 ≤ f →
    natDigitsAux f n acc = natDigitsAux (n + 1) n acc := by
  induction n using Nat.strong_induction_on with
  | _ n ih =>
    intro f acc hf
    match f, hf with
    | f + 1, _ =>
      by_cases h : n < 10
      · simp [natDigitsAux, h]
      · simp only [natDigitsAux, if_neg h]
        have hdiv : n / 10 < n := Nat.div_lt_self (by omega) (by omega)
        rw [ih (n / 10) hdiv f _ (by omega), ih (n / 10) hdiv n _ (by omega)]

theorem natStr_eq (n : Nat) : natStr n =
    if n < 10 then [Nat.digitChar n]
    else natStr (n / 10) ++ [Nat.digitChar (n % 10)] := by
  by_cases h : n < 10
  · simp [natStr, natDigitsAux, h]
  · rw [if_neg h]
    show natDigitsAux (n + 1) n [] = _
    rw [natDigitsAux, if_neg h,
      natDigitsAux_fuel (n / 10) n _ (by omega), natDigitsAux_acc]
    rfl

theorem natStr_ne_nil (n : Nat) : natStr n ≠ [] := by
  rw [natStr_eq]
  split_ifs <;> simp

theorem digitChar_inj_lt : ∀ a < 10, ∀ b < 10,
    Nat.digitChar a = Nat.digitChar b → a = b := by decide

theorem natStr_injective : Function.Injective natStr := by
  intro a b h
  induction a using Nat.strong_induction_on generalizing b with
  | _ a ih =>
    rw [natStr_eq a, natStr_eq b] at h
    by_cases ha : a < 10 <;> by_cases hb : b < 10
    · rw [if_pos ha, if_pos hb] at h
      simp at h
      exact digitChar_inj_lt a ha b hb h
    · rw [if_pos ha, if_neg hb] at h
      have hl := congrArg List.length h
      rw [List.length_append] at hl
      simp only [List.length_cons, List.length_nil] at hl
      have h0 : (natStr (b / 10)).length = 0 := by omega
      exact absurd (List.length_eq_zero.mp h0) (natStr_ne_nil (b / 10))
    · rw [if_neg ha, if_pos hb] at h
      have hl := congrArg List.length h
      rw [List.length_append] at hl
      simp only [List.length_cons, List.length_nil] at hl
      have h0 : (natStr (a / 10)).length = 0 := by omega
      exact absurd (List.length_eq_zero.mp h0) (natStr_ne_nil (a / 10))
    · rw [if_neg ha, if_neg hb] at h
      obtain ⟨h1, h2⟩ := List.append_inj' h (by simp)
      have hd : a / 10 = b / 10 :=
        ih (a / 10) (Nat.div_lt_self (by omega) (by omega)) h1
      have hm : a % 10 = b % 10 :=
        digitChar_inj_lt _ (Nat.mod_lt a (by omega)) _ (Nat.mod_lt b (by omega))
          (by simpa using h2)
      omega

theorem pyStem_append_pySuffix (name : PyStr) :
    pyStem name ++ pySuffix name = name := by
  cases h : rfindDot name with
  | none => simp [pyStem, pySuffix, h]
  | some i =>
    simp only [pyStem, pySuffix, h]
    split_ifs <;> simp

theorem cand_injective (stem suffix : PyStr) :
    Function.Injective (cand stem suffix) := by
  intro i j h
  exact natStr_injective
    (List.append_cancel_left (List.append_cancel_right h))

theorem cand_exists_free (ex : List PyStr) (stem suffix : PyStr) (i : Nat) :
    ∃ j, i ≤ j ∧ j < i + ex.length + 1 ∧ cand stem suffix j ∉ ex := by
  by_contra hall
  push_neg at hall
  have hmaps : ∀ j ∈ Finset.Ico i (i + ex.length + 1),
      cand stem suffix j ∈ ex.toFinset := by
    intro j hj
    rw [Finset.mem_Ico] at hj
    rw [List.mem_toFinset]
    exact hall j hj.1 hj.2
  have hinj : Set.InjOn (cand stem suffix) (Finset.Ico i (i + ex.length + 1)) :=
    fun a _ b _ h => cand_injective stem suffix h
  have hcard := Finset.card_le_card_of_injOn _ hmaps hinj
  rw [Nat.card_Ico] at hcard
  have := ex.toFinset_card_le
  omega

theorem resolveLoop_spec (ex : List PyStr) (stem suffix : PyStr) :
    ∀ fuel i, (∃ j, i ≤ j ∧ j < i + fuel ∧ cand stem suffix j ∉ ex) →
      ∃ j, i ≤ j ∧ resolveLoop ex stem suffix fuel i = cand stem suffix j ∧
        cand stem suffix j ∉ ex ∧
        ∀ m, i ≤ m → m < j → cand stem suffix m ∈ ex := by
  intro fuel
  induction fuel with
  | zero =>
    rintro i ⟨j, h1, h2, -⟩
    omega
  | succ f ih =>
    rintro i ⟨j, hj1, hj2, hj3⟩
    by_cases hc : cand stem suffix i ∈ ex
    · have hex : ∃ j, i + 1 ≤ j ∧ j < i + 1 + f ∧ cand stem suffix j ∉ ex := by
        refine ⟨j, ?_, by omega, hj3⟩
        rcases Nat.eq_or_lt_of_le hj1 with rfl | h
        · exact absurd hc hj3
        · omega
      obtain ⟨k, hk1, hk2, hk3, hk4⟩ := ih (i + 1) hex
      refine ⟨k, by omega, ?_, hk3, ?_⟩
      · rw [resolveLoop, if_pos hc]
        exact hk2
      · intro m hm1 hm2
        rcases Nat.eq_or_lt_of_le hm1 with rfl | h
        · exact hc
        · exact hk4 m h hm2
    · exact ⟨i, le_refl i, by rw [resolveLoop, if_neg hc], hc,
        by intro m h1 h2; omega⟩

theorem destName_of_not_mem (ex : List PyStr) (name : PyStr)
    (h : name ∉ ex) : destName ex name = name := by
  simp [destName, h]

theorem destName_of_mem (ex : List PyStr) (name : PyStr) (h : name ∈ ex) :
    ∃ n, 1 ≤ n ∧ destName ex name = cand (pyStem name) (pySuffix name) n ∧
      cand (pyStem name) (pySuffix name) n ∉ ex ∧
      ∀ m, 1 ≤ m → m < n → cand (pyStem name) (pySuffix name) m ∈ ex := by
  obtain ⟨j, hj1, hj2, hj3⟩ :=
    cand_exists_free ex (pyStem name) (pySuffix name) 1
  obtain ⟨k, hk1, hk2, hk3, hk4⟩ :=
    resolveLoop_spec ex (pyStem name) (pySuffix name) (ex.length + 1) 1
      ⟨j, hj1, by omega, hj3⟩
  exact ⟨k, hk1, by rw [destName, if_pos h]; exact hk2, hk3, hk4⟩

theorem destName_fresh (ex : List PyStr) (name : PyStr) :
    destName ex name ∉ ex := by
  by_cases h : name ∈ ex
  · obtain ⟨n, -, heq, hfree, -⟩ := destName_of_mem ex name h
    rw [heq]
    exact hfree
  · rw [destName_of_not_mem ex name h]
    exact h

theorem runCopy_state (fs : List (PyStr × PyStr)) :
    ∀ st, (runCopy fs st).1 = st ++ (runCopy fs st).2 := by
  induction fs with
  | nil => intro st; simp [runCopy]
  | cons f rest ih =>
    intro st
    obtain ⟨nm, cont⟩ := f
    simp only [runCopy]
    rw [ih]
    simp

theorem runCopy_count (fs : List (PyStr × PyStr)) :
    ∀ st, (runCopy fs st).2.length = fs.length := by
  induction fs with
  | nil => intro st; simp [runCopy]
  | cons f rest ih =>
    intro st
    obtain ⟨nm, cont⟩ := f
    simp only [runCopy, List.length_cons]
    rw [ih]

theorem runCopy_contents (fs : List (PyStr × PyStr)) :
    ∀ st, (runCopy fs st).2.map Prod.snd = fs.map Prod.snd := by
  induction fs with
  | nil => intro st; simp [runCopy]
  | cons f rest ih =>
    intro st
    obtain ⟨nm, cont⟩ := f
    simp only [runCopy, List.map_cons]
    rw [ih]

theorem runCopy_nodup (fs : List (PyStr × PyStr)) :
    ∀ st, ((st.map Prod.fst).Nodup) → ((runCopy fs st).1.map Prod.fst).Nodup := by
  induction fs with
  | nil => intro st h; simpa [runCopy] using h
  | cons f rest ih =>
    intro st h
    obtain ⟨nm, cont⟩ := f
    simp only [runCopy]
    apply ih
    rw [List.map_append]
    rw [List.nodup_append]
    refine ⟨h, by simp, ?_⟩
    intro a ha
    simp only [List.map_cons, List.map_nil, List.mem_cons, List.not_mem_nil,
      or_false]
    rintro rfl
    exact destName_fresh (st.map Prod.fst) nm ha

theorem lexLe_total : ∀ a b, lexLe a b = true ∨ lexLe b a = true := by
  intro a
  induction a with
  | nil => intro b; left; rfl
  | cons x xs ih =>
    intro b
    cases b with
    | nil => right; rfl
    | cons y ys =>
      by_cases h1 : x.toNat < y.toNat
      · left; simp [lexLe, h1]
      · by_cases h2 : x.toNat = y.toNat
        · rcases ih ys with h | h
          · left; simp [lexLe, h1, h2, h]
          · right
            have h3 : ¬ y.toNat < x.toNat := by omega
            have h4 : y.toNat = x.toNat := by omega
            simp [lexLe, h3, h4, h]
        · right
          have h3 : y.toNat < x.toNat := by omega
          simp [lexLe, h3]

theorem lexLe_trans : ∀ a b c, lexLe a b = true → lexLe b c = true →
    lexLe a c = true := by
  intro a
  induction a with
  | nil => intro b c _ _; rfl
  | cons x xs ih =>
    intro b c hab hbc
    cases b with
    | nil => simp [lexLe] at hab
    | cons y ys =>
      cases c with
      | nil => simp [lexLe] at hbc
      | cons z zs =>
        simp only [lexLe] at hab hbc ⊢
        by_cases h1 : x.toNat < y.toNat <;> by_cases h2 : y.toNat < z.toNat
        · have h5 : x.toNat < z.toNat := by omega
          simp [h5]
        · rw [if_neg h2] at hbc
          by_cases h3 : y.toNat = z.toNat
          · have h5 : x.toNat < z.toNat := by omega
            simp [h5]
          · rw [if_neg h3] at hbc
            simp at hbc
        · rw [if_neg h1] at hab
          by_cases h3 : x.toNat = y.toNat
          · have h5 : x.toNat < z.toNat := by omega
            simp [h5]
          · rw [if_neg h3] at hab
            simp at hab
        · rw [if_neg h1] at hab
          rw [if_neg h2] at hbc
          by_cases h3 : x.toNat = y.toNat
          · by_cases h4 : y.toNat = z.toNat
            · rw [if_pos h3] at hab
              rw [if_pos h4] at hbc
              have h5 : ¬ x.toNat < z.toNat := by omega
              have h6 : x.toNat = z.toNat := by omega
              rw [if_neg h5, if_pos h6]
              exact ih ys zs hab hbc
            · rw [if_neg h4] at hbc
              simp at hbc
          · rw [if_neg h3] at hab
            simp at hab

theorem charToNat_inj (x y : Char) (h : x.toNat = y.toNat) : x = y := by
  rw [← Char.ofNat_toNat x, ← Char.ofNat_toNat y, h]

theorem lexLe_antisymm : ∀ a b, lexLe a b = true → lexLe b a = true →
    a = b := by
  intro a
  induction a with
  | nil =>
    intro b _ hba
    cases b with
    | nil => rfl
    | cons y ys => simp [lexLe] at hba
  | cons x xs ih =>
    intro b hab hba
    cases b with
    | nil => simp [lexLe] at hab
    | cons y ys =>
      simp only [lexLe] at hab hba
      by_cases h1 : x.toNat < y.toNat
      · have h2 : ¬ y.toNat < x.toNat := by omega
        have h3 : ¬ y.toNat = x.toNat := by omega
        rw [if_neg h2, if_neg h3] at hba
        simp at hba
      · by_cases h2 : x.toNat = y.toNat
        · rw [if_neg h1, if_pos h2] at hab
          have h3 : ¬ y.toNat < x.toNat := by omega
          have h4 : y.toNat = x.toNat := by omega
          rw [if_neg h3, if_pos h4] at hba
          rw [charToNat_inj x y h2, ih ys hab hba]
        · rw [if_neg h1, if_neg h2] at hab
          simp at hab

instance : IsTotal PyStr strLe := ⟨lexLe_total⟩

instance : IsTrans PyStr strLe := ⟨lexLe_trans⟩

instance : IsAntisymm PyStr strLe := ⟨lexLe_antisymm⟩

instance : IsTotal (PyStr × PyStr × PyStr) fileLe := ⟨fun a b => lexLe_total a.1 b.1⟩

instance : IsTrans (PyStr × PyStr × PyStr) fileLe :=
  ⟨fun a b c => lexLe_trans a.1 b.1 c.1⟩


/-! ### Supporting lemmas for the claims -/
theorem esc_eq_self (s : PyStr)
    (h : ∀ c ∈ s, c ≠ '&' ∧ c ≠ '<' ∧ c ≠ '>' ∧ c ≠ '"' ∧ c ≠ squote) :
    esc s = s := by
  induction s with
  | nil => rfl
  | cons c cs ih =>
    have hc := h c (by simp)
    have htok : escToken c = [c] := by
      unfold escToken
      rw [if_neg hc.1, if_neg hc.2.1, if_neg hc.2.2.1, if_neg hc.2.2.2.1,
        if_neg hc.2.2.2.2]
    rw [esc_cons, htok, ih (fun x hx => h x (by simp [hx]))]
    rfl

theorem cand_one_ne_name (name : PyStr) :
    cand (pyStem name) (pySuffix name) 1 ≠ name := by
  intro h
  have hlen := congrArg List.length h
  have hsplit := congrArg List.length (pyStem_append_pySuffix name)
  have h1 : (natStr 1).length = 1 := by decide
  have h2 : (lit "_").length = 1 := by decide
  simp only [cand, List.length_append] at hlen hsplit
  omega

/-! ### The claims -/
set_option maxRecDepth 100000 in
/-- Claim C1 fails on the code: preview_for interpolates rel_href - which
embeds the destination file name - into the img src (and iframe src)
attribute without passing it through esc, and the card's download href
embeds the same raw rel.  For the POSIX-legal file name x".png the raw
double quote from the name therefore reaches the page inside an attribute
value; only the alt text carries the escaped form.  This theorem
evaluates the code at that failing input: the unescaped src/href text is
an infix of the output, the escaped src text is not. -/
theorem preview_img_href_unescaped :
    (lit "src=\"./files/x\".png\"" <:+:
      preview_for (lit "x\".png") [] (lit "./files/x\".png")) ∧
    (lit "href=\"./files/x\".png\"" <:+:
      cardHtml (lit "x\".png") [] (lit "./files/x\".png") (lit "0.0B")
        (lit "image/png")) ∧
    ¬ (lit "src=\"" ++ esc (lit "./files/x\".png") ++ lit "\"" <:+:
      preview_for (lit "x\".png") [] (lit "./files/x\".png")) := by decide

/-- Claim C9: over any finite list of existing names there is a positive
counter whose stem_n suffix candidate is fresh, so the while-loop
terminates, and the destination name the loop computes is never among the
existing entries. -/
theorem collision_loop_terminates :
    (∀ (ex : List PyStr) (stem suffix : PyStr),
      ∃ n, 1 ≤ n ∧ cand stem suffix n ∉ ex) ∧
    ∀ (ex : List PyStr) (name : PyStr), destName ex name ∉ ex :=
  ⟨fun ex stem suffix => by
    obtain ⟨j, h1, _, h3⟩ := cand_exists_free ex stem suffix 1
    exact ⟨j, h1, h3⟩,
   destName_fresh⟩

/-- Claim C4: the destination name is the base name when free; otherwise
it is stem_n suffix for the least n ≥ 1 that avoids a collision; and of
two source files sharing a base name (as collected from different
subdirectories), the first keeps the name and the second lands under
stem_1 suffix. -/
theorem destName_least_suffix_rule :
    (∀ (ex : List PyStr) (name : PyStr), name ∉ ex → destName ex name = name) ∧
    (∀ (ex : List PyStr) (name : PyStr), name ∈ ex → ∃ n, 1 ≤ n ∧
      destName ex name = cand (pyStem name) (pySuffix name) n ∧
      cand (pyStem name) (pySuffix name) n ∉ ex ∧
      ∀ m, 1 ≤ m → m < n → cand (pyStem name) (pySuffix name) m ∈ ex) ∧
    ∀ (name c1 c2 : PyStr), (runCopy [(name, c1), (name, c2)] []).1 =
      [(name, c1), (cand (pyStem name) (pySuffix name) 1, c2)] := by
  refine ⟨destName_of_not_mem, destName_of_mem, ?_⟩
  intro name c1 c2
  have hd1 : destName ([] : List (PyStr × PyStr)).unzip.1 name = name := by
    exact destName_of_not_mem _ _ (by simp)
  have hmem : cand (pyStem name) (pySuffix name) 1 ∉ [name] := by
    simp [cand_one_ne_name name]
  have hd2 : destName [name] name = cand (pyStem name) (pySuffix name) 1 := by
    rw [destName, if_pos (by simp)]
    show resolveLoop [name] _ _ 2 1 = _
    rw [resolveLoop, if_neg hmem]
  simp [runCopy, destName_of_not_mem ([] : List PyStr) name (by simp), hd2]

/-- Concrete instantiation of the destination-name rule. -/
theorem destName_least_suffix_rule_check :
    destName [] (lit "a.txt") = lit "a.txt" ∧
    (∃ n, 1 ≤ n ∧
      destName [lit "a.txt"] (lit "a.txt") =
        cand (pyStem (lit "a.txt")) (pySuffix (lit "a.txt")) n ∧
      cand (pyStem (lit "a.txt")) (pySuffix (lit "a.txt")) n ∉ [lit "a.txt"] ∧
      ∀ m, 1 ≤ m → m < n →
        cand (pyStem (lit "a.txt")) (pySuffix (lit "a.txt")) m ∈ [lit "a.txt"]) :=
  ⟨destName_least_suffix_rule.1 [] (lit "a.txt") (by decide),
   destName_least_suffix_rule.2.1 [lit "a.txt"] (lit "a.txt") (by decide)⟩

/-- Claim C2: starting from an empty files directory, one run of the
pipeline produces exactly one files-directory entry per regular file
reachable under the source directory, with pairwise distinct names. -/
theorem files_dir_count_unique (srcPath updated : PyStr) (tree : FsTree) :
    ((mainRun true srcPath tree [] updated).filesDir).length =
      (filesUnder (srcPath ++ lit "/") tree).length ∧
    (((mainRun true srcPath tree [] updated).filesDir).map Prod.fst).Nodup := by
  have hperm :=
    List.perm_insertionSort fileLe (filesUnder (srcPath ++ lit "/") tree)
  constructor
  · show ((runCopy ((collectSorted (srcPath ++ lit "/") tree).map
        (fun x => (x.2.1, x.2.2))) []).1).length = _
    rw [runCopy_state]
    simp only [List.nil_append]
    rw [runCopy_count]
    simp [collectSorted, hperm.length_eq]
  · show (((runCopy ((collectSorted (srcPath ++ lit "/") tree).map
        (fun x => (x.2.1, x.2.2))) []).1).map Prod.fst).Nodup
    exact runCopy_nodup _ [] (by simp)

/-- Concrete instantiation of the count/uniqueness theorem. -/
theorem files_dir_count_unique_check :
    ((mainRun true (lit "uploads")
        (.file (lit "a.txt") (lit "x") (.file (lit "b.txt") (lit "y") .nil))
        [] (lit "t")).filesDir).length = 2 :=
  (files_dir_count_unique (lit "uploads") (lit "t")
    (.file (lit "a.txt") (lit "x") (.file (lit "b.txt") (lit "y") .nil))).1.trans
    (by decide)

/-- Counterexample to claim C3: running the pipeline a second time over an
unchanged one-file source does not reproduce the files directory of the
first run - the second run re-copies the file under the suffixed name. -/
theorem second_run_files_differ :
    (mainRun true (lit "uploads") (.file (lit "a.txt") (lit "x") .nil)
        ((mainRun true (lit "uploads") (.file (lit "a.txt") (lit "x") .nil)
          [] (lit "t")).filesDir) (lit "t")).filesDir ≠
      (mainRun true (lit "uploads") (.file (lit "a.txt") (lit "x") .nil)
        [] (lit "t")).filesDir := by decide

/-- Claim C3 amended: every run copies each source file byte-for-byte, so
a re-run over an unchanged source leaves the first run's entries intact
and appends one freshly renamed entry per source file whose content is
identical to its source; the directory therefore gains duplicates instead
of staying fixed. -/
theorem second_run_appends_duplicates (files st : List (PyStr × PyStr)) :
    ∃ delta, (runCopy files st).1 = st ++ delta ∧
      delta.length = files.length ∧
      delta.map Prod.snd = files.map Prod.snd ∧
      ∀ e ∈ delta, e.1 ∉ st.map Prod.fst := by
  refine ⟨(runCopy files st).2, runCopy_state files st, runCopy_count files st,
    runCopy_contents files st, ?_⟩
  induction files generalizing st with
  | nil => simp [runCopy]
  | cons f rest ih =>
    obtain ⟨nm, cont⟩ := f
    intro e he
    simp only [runCopy, List.mem_cons] at he
    rcases he with rfl | he
    · exact destName_fresh (st.map Prod.fst) nm
    · have := ih (st ++ [(destName (st.map Prod.fst) nm, cont)]) e he
      simp only [List.map_append, List.mem_append] at this
      intro hmem
      exact this (Or.inl hmem)

/-- Claim C5: with the source directory missing, main short-circuits: the
page is the minimal not-found page, which renders the source path (the
escaped path text sits in the code element, and the path appears verbatim
when it has no escapable characters), the files directory is untouched,
the not-found line is printed, and the branch returns normally (mainRun
is total; the branch performs no fallible operation). -/
theorem main_missing_source (srcPath updated : PyStr) (tree : FsTree)
    (initFiles : List (PyStr × PyStr)) :
    (mainRun false srcPath tree initFiles updated).page = notFoundPage srcPath ∧
    (lit "<code>" ++ esc srcPath ++ lit "</code>" <:+:
      (mainRun false srcPath tree initFiles updated).page) ∧
    (mainRun false srcPath tree initFiles updated).filesDir = initFiles ∧
    (mainRun false srcPath tree initFiles updated).stdoutLine =
      lit "Source folder not found: " ++ srcPath ∧
    ((∀ c ∈ srcPath, c ≠ '&' ∧ c ≠ '<' ∧ c ≠ '>' ∧ c ≠ '"' ∧ c ≠ squote) →
      srcPath <:+: (mainRun false srcPath tree initFiles updated).page) := by
  have e1 : (lit "<!doctype html><meta charset=\x27utf-8\x27><link rel=\x27stylesheet\x27 href=\x27./site_assets/styles.css\x27><body><main><h1>資料夾不存在</h1><p class=\x27note\x27>找不到來源資料夾：" ++ lit "<code>" : PyStr) =
      lit "<!doctype html><meta charset=\x27utf-8\x27><link rel=\x27stylesheet\x27 href=\x27./site_assets/styles.css\x27>" ++
        lit "<body><main><h1>資料夾不存在</h1><p class=\x27note\x27>找不到來源資料夾：<code>" := by decide
  have e2 : (lit "</code>" ++ lit "</p></main></body>" : PyStr) =
      lit "</code></p></main></body>" := by decide
  have hinfix : lit "<code>" ++ esc srcPath ++ lit "</code>" <:+:
      notFoundPage srcPath := by
    refine ⟨lit "<!doctype html><meta charset=\x27utf-8\x27><link rel=\x27stylesheet\x27 href=\x27./site_assets/styles.css\x27><body><main><h1>資料夾不存在</h1><p class=\x27note\x27>找不到來源資料夾：",
      lit "</p></main></body>", ?_⟩
    rw [notFoundPage]
    simp only [List.append_assoc]
    rw [e2, ← List.append_assoc
      (lit "<!doctype html><meta charset=\x27utf-8\x27><link rel=\x27stylesheet\x27 href=\x27./site_assets/styles.css\x27><body><main><h1>資料夾不存在</h1><p class=\x27note\x27>找不到來源資料夾：")
      (lit "<code>"), e1, List.append_assoc]
  refine ⟨rfl, hinfix, rfl, rfl, ?_⟩
  intro h
  have he : esc srcPath = srcPath := esc_eq_self srcPath h
  have hmid : srcPath <:+: lit "<code>" ++ esc srcPath ++ lit "</code>" := by
    rw [he]
    exact ⟨lit "<code>", lit "</code>", rfl⟩
  exact hmid.trans hinfix

/-- Concrete instantiation of the missing-source theorem: a plain path
appears verbatim in the page. -/
theorem main_missing_source_check :
    lit "uploads" <:+: (mainRun false (lit "uploads") .nil [] (lit "t")).page :=
  (main_missing_source (lit "uploads") (lit "t") .nil []).2.2.2.2 (by decide)

/-- Concrete instantiation of the re-run theorem. -/
theorem second_run_appends_duplicates_check :
    ∃ delta, (runCopy [(lit "a.txt", lit "x")] [(lit "a.txt", lit "x")]).1 =
        [(lit "a.txt", lit "x")] ++ delta ∧
      delta.length = 1 ∧
      delta.map Prod.snd = [lit "x"] ∧
      ∀ e ∈ delta, e.1 ∉ [lit "a.txt"] := by
  obtain ⟨delta, h1, h2, h3, h4⟩ :=
    second_run_appends_duplicates [(lit "a.txt", lit "x")] [(lit "a.txt", lit "x")]
  exact ⟨delta, h1, h2, h3, by simpa using h4⟩

end Gallery

